import Mathlib

/-!
Shallow embedding of the UKAI distributed virtual-disk core
(src/libukai/ukai_metadata.py, src/ukai_data.py) together with proofs
checking the natural-language design specification against it.

Modelling conventions:
* Python dicts are modelled as association lists in iteration order;
  Python guarantees unique keys, which theorems assume where needed.
* Python `assert` failures and uncaught exceptions on a code path are
  modelled by `Option`-valued operations returning `none`, except where a
  claim is about the exception behaviour itself, in which case the escape
  is modelled explicitly.
* Machine integers are `Nat`/`Int`; Python 2 `/` on non-negative ints is
  `Nat` division.
* External collaborators (persistence backend, RPC transport, locality
  oracle) are parameters: `isLocal`, `rpcFails`, `readers`.
-/

/-- Sync status constant, src/libukai/ukai_metadata.py line 45. -/
def UKAI_IN_SYNC : Nat := 0

/-- Sync status constant, src/libukai/ukai_metadata.py line 46. -/
def UKAI_SYNCING : Nat := 1

/-- Sync status constant, src/libukai/ukai_metadata.py line 47. -/
def UKAI_OUT_OF_SYNC : Nat := 2

/-- Metadata record of one virtual disk image
(src/libukai/ukai_metadata.py lines 66-77): name, size, used_size,
block_size, the hypervisor map and the per-block replica maps.  Each
replica map sends a node address to its sync_status value. -/
structure UKAIMetadata where
  name : String
  size : Nat
  used_size : Nat
  block_size : Nat
  hypervisors : List (String × Nat)
  blocks : List (List (String × Nat))
deriving DecidableEq

/-- Membership test of a key in an association list, modelling the Python
expression `k in d` on a dict. -/
def hasKey {α : Type} (k : String) (l : List (String × α)) : Bool :=
  l.any (fun e => e.1 == k)

/-- Lookup of a key in an association list, modelling the Python
expression `d[k]` on a dict (first matching entry). -/
def lookupKey {α : Type} (k : String) (l : List (String × α)) : Option α :=
  (l.find? (fun e => e.1 == k)).map (fun e => e.2)

/-- Map over a list with the position index available, starting from a
given index.  Used to model Python loops of the form
`for blk_idx in range(start_idx, end_idx + 1)` acting on `blocks`. -/
def mapFromIdx {α : Type} (f : Nat → α → α) : Nat → List α → List α
  | _, [] => []
  | i, a :: rest => f i a :: mapFromIdx f (i + 1) rest

/-- Number of blocks as the source computes it: `self.size / self.block_size`. -/
def UKAIMetadata.nblocks (md : UKAIMetadata) : Nat :=
  md.size / md.block_size

/-- Resolution of a `(start_idx, end_idx)` pair shared verbatim by
`acquire_lock`, `release_lock`, `add_location` and `remove_location`
(src/libukai/ukai_metadata.py lines 240-244, 263-267, 331-335, 364-368):
`end_idx == -1` is replaced by the last block index, then the three
asserts `start_idx >= 0`, `end_idx >= start_idx`,
`end_idx < size / block_size` run; an assert failure is `none`. -/
def UKAIMetadata.resolveRange (md : UKAIMetadata) (start_idx end_idx : Int) :
    Option (Nat × Nat) :=
  let e : Int := if end_idx = -1 then (md.nblocks : Int) - 1 else end_idx
  if 0 ≤ start_idx ∧ start_idx ≤ e ∧ e < (md.nblocks : Int) then
    some (start_idx.toNat, e.toNat)
  else none

/-- Sequence of lock indices acquired by `acquire_lock`
(src/libukai/ukai_metadata.py lines 227-247), in acquisition order.  The
source loop is `for blk_idx in range(0, end_idx + 1): self._lock[blk_idx].acquire()`;
note that the loop starts at 0, not at `start_idx`. -/
def UKAIMetadata.acquire_lock_indices (md : UKAIMetadata)
    (start_idx end_idx : Int) : Option (List Nat) :=
  (md.resolveRange start_idx end_idx).map (fun r => List.range (r.2 + 1))

/-- Sequence of lock indices released by `release_lock`
(src/libukai/ukai_metadata.py lines 249-270), in release order.  The
source loop is `for blk_idx in range(0, end_idx + 1): self._lock[blk_idx].release()`;
it also starts at 0, not at `start_idx`. -/
def UKAIMetadata.release_lock_indices (md : UKAIMetadata)
    (start_idx end_idx : Int) : Option (List Nat) :=
  (md.resolveRange start_idx end_idx).map (fun r => List.range (r.2 + 1))

/-- Metadata creation, `ukai_metadata_create`
(src/libukai/ukai_metadata.py lines 51-81): builds the raw record with
`used_size = size`, one creator hypervisor entry with status
`UKAI_IN_SYNC`, and `size / block_size` blocks each holding exactly one
replica `location` with status `UKAI_IN_SYNC`.  No geometry validation
is performed; `block_size = 0` raises `ZeroDivisionError` at
`range(0, size / block_size)`, modelled as `none`.  The trailing
`metadata.flush()` broadcast does not touch the record fields built here
and is modelled separately by `UKAIMetadata.flush`. -/
def ukai_metadata_create (image_name : String) (size block_size : Nat)
    (location hypervisor : String) : Option UKAIMetadata :=
  if block_size = 0 then none
  else some
    { name := image_name
      size := size
      used_size := size
      block_size := block_size
      hypervisors := [(hypervisor, UKAI_IN_SYNC)]
      blocks := (List.range (size / block_size)).map
        (fun _ => [(location, UKAI_IN_SYNC)]) }

/-- Concrete metadata record with four blocks of 100 bytes, used to
exercise the lock-range computation. -/
def lockDemoMd : UKAIMetadata :=
  { name := "img"
    size := 400
    used_size := 400
    block_size := 100
    hypervisors := [("H", UKAI_IN_SYNC)]
    blocks := [[("A", UKAI_IN_SYNC)], [("A", UKAI_IN_SYNC)],
               [("A", UKAI_IN_SYNC)], [("A", UKAI_IN_SYNC)]] }

/-- Update of one hypervisor entry, modelling
`self.hypervisors[hypervisor]` assignment inside
`_set_hypervisor_sync_status` (src/libukai/ukai_metadata.py line 277);
dict keys are unique, so updating every matching entry of the
association list is the same update. -/
def setHvStatus (hv : String) (st : Nat) (hvs : List (String × Nat)) :
    List (String × Nat) :=
  hvs.map (fun e => if e.1 == hv then (e.1, st) else e)

/-- Peer-broadcast loop of `flush` (src/libukai/ukai_metadata.py lines
138-151) over the reader list returned by the persistence backend.
Local nodes are skipped.  For a remote reader the loop first sets the
hypervisor entry to `UKAI_IN_SYNC` and then performs the
`proxy_update_metadata` RPC.  Any exception raised inside the loop body
reaches `except (IOError, xmlrpclib.Error), e:`; evaluating that clause
raises `NameError`, because `xmlrpclib` is never imported by
ukai_metadata.py, so the exception escapes `flush` with the in-place
mutations done so far kept.  The escape is the `true` flag of the
result; the two exception sources are an RPC failure (`rpcFails hv`) and
a `KeyError` when the reader is not in the hypervisor map. -/
def flushLoop (isLocal rpcFails : String → Bool) :
    UKAIMetadata → List String → UKAIMetadata × Bool
  | md, [] => (md, false)
  | md, hv :: rest =>
    if isLocal hv then flushLoop isLocal rpcFails md rest
    else if hasKey hv md.hypervisors then
      if rpcFails hv then
        ({ md with hypervisors := setHvStatus hv UKAI_IN_SYNC md.hypervisors }, true)
      else
        flushLoop isLocal rpcFails
          { md with hypervisors := setHvStatus hv UKAI_IN_SYNC md.hypervisors } rest
    else (md, true)

/-- Flush of the metadata record (src/libukai/ukai_metadata.py lines
125-154): persists the record to the opaque backend (a no-op on the
in-memory record) and broadcasts it to all non-local readers.  The
result is the record after the broadcast loop together with a flag that
is `true` when an exception escaped to the caller. -/
def UKAIMetadata.flush (md : UKAIMetadata) (readers : List String)
    (isLocal rpcFails : String → Bool) : UKAIMetadata × Bool :=
  flushLoop isLocal rpcFails md readers

/-- Sync-status setter `set_sync_status`
(src/libukai/ukai_metadata.py lines 279-298): asserts the status is one
of the three constants, then assigns
`self.blocks[blk_idx][node]["sync_status"]`.  An out-of-range index
(IndexError) or a missing node key (KeyError) is `none`. -/
def setBlockStatus (node : String) (sync_status : Nat)
    (blk : List (String × Nat)) : List (String × Nat) :=
  blk.map (fun e => if e.1 == node then (e.1, sync_status) else e)

/-- Full `set_sync_status` over the record, built from `setBlockStatus`
(dict keys are unique, so updating every matching entry of the
association list is the same one-key update). -/
def UKAIMetadata.set_sync_status (md : UKAIMetadata) (blk_idx : Nat)
    (node : String) (sync_status : Nat) : Option UKAIMetadata :=
  if sync_status = UKAI_IN_SYNC ∨ sync_status = UKAI_SYNCING ∨
      sync_status = UKAI_OUT_OF_SYNC then
    if blk_idx < md.blocks.length ∧ hasKey node (md.blocks.getD blk_idx []) then
      some { md with blocks := md.blocks.set blk_idx (setBlockStatus node sync_status (md.blocks.getD blk_idx [])) }
    else none
  else none

/-- Location addition `add_location`
(src/libukai/ukai_metadata.py lines 316-349): after the range asserts,
for each block index in `[start_idx, end_idx]` the node is inserted with
the given status only when it is not yet present.  The status assert of
the inner `set_sync_status` call is hoisted into the guard (it fires on
the first insertion in the source).  The trailing `flush` broadcast does
not touch `blocks` and is modelled separately.  `addLocBlock` is the
per-index loop body: blocks outside `[r.1, r.2]` are untouched. -/
def addLocBlock (node : String) (sync_status : Nat) (r : Nat × Nat)
    (i : Nat) (blk : List (String × Nat)) : List (String × Nat) :=
  if r.1 ≤ i ∧ i ≤ r.2 ∧ ¬ hasKey node blk
  then blk ++ [(node, sync_status)] else blk

/-- Full `add_location` over the record, built from `addLocBlock`. -/
def UKAIMetadata.add_location (md : UKAIMetadata) (node : String)
    (start_idx end_idx : Int) (sync_status : Nat) : Option UKAIMetadata :=
  if sync_status = UKAI_IN_SYNC ∨ sync_status = UKAI_SYNCING ∨
      sync_status = UKAI_OUT_OF_SYNC then
    (md.resolveRange start_idx end_idx).map (fun r =>
      { md with blocks := mapFromIdx (addLocBlock node sync_status r) 0 md.blocks })
  else none

/-- Per-block body of the `remove_location` loop
(src/libukai/ukai_metadata.py lines 373-387): `has_synced_node` scans
the members other than `node` for one with status `UKAI_IN_SYNC`; when
none exists the block is left untouched and a diagnostic line is
printed (the `Bool` component); otherwise the `node` key is deleted. -/
def removeLocationBlock (node : String) (blk : List (String × Nat)) :
    List (String × Nat) × Bool :=
  if blk.any (fun e => e.1 != node && e.2 == UKAI_IN_SYNC) then
    (blk.filter (fun e => e.1 != node), false)
  else
    (blk, true)

/-- Location removal `remove_location`
(src/libukai/ukai_metadata.py lines 351-392): after the range asserts,
applies `removeLocationBlock` to each block index in
`[start_idx, end_idx]`.  The trailing `flush` broadcast does not touch
`blocks` and is modelled separately.  `removeRangeBlock` is the
per-index loop body: blocks outside `[r.1, r.2]` are untouched. -/
def removeRangeBlock (node : String) (r : Nat × Nat)
    (i : Nat) (blk : List (String × Nat)) : List (String × Nat) :=
  if r.1 ≤ i ∧ i ≤ r.2 then (removeLocationBlock node blk).1 else blk

/-- Full `remove_location` over the record, built from `removeRangeBlock`. -/
def UKAIMetadata.remove_location (md : UKAIMetadata) (node : String)
    (start_idx end_idx : Int) : Option UKAIMetadata :=
  (md.resolveRange start_idx end_idx).map (fun r =>
    { md with blocks := mapFromIdx (removeRangeBlock node r) 0 md.blocks })

/-- Hypervisor addition `add_hypervisor`
(src/libukai/ukai_metadata.py lines 394-405): inserts the hypervisor
with status `UKAI_OUT_OF_SYNC` when not yet present.  The trailing
`flush` is modelled separately. -/
def UKAIMetadata.add_hypervisor (md : UKAIMetadata) (hypervisor : String) :
    UKAIMetadata :=
  if hasKey hypervisor md.hypervisors then md
  else { md with hypervisors := md.hypervisors ++ [(hypervisor, UKAI_OUT_OF_SYNC)] }

/-- Hypervisor removal `remove_hypervisor`
(src/libukai/ukai_metadata.py lines 407-418): deletes the hypervisor
key when present.  The trailing `flush` is modelled separately. -/
def UKAIMetadata.remove_hypervisor (md : UKAIMetadata) (hypervisor : String) :
    UKAIMetadata :=
  if hasKey hypervisor md.hypervisors then
    { md with hypervisors := md.hypervisors.filter (fun e => e.1 != hypervisor) }
  else md

/-- Structural invariant of a metadata record from the specification:
the blocks sequence has length `size / block_size` and every block has a
non-empty replica map. -/
def goodGeometry (md : UKAIMetadata) : Prop :=
  md.blocks.length = md.size / md.block_size ∧ ∀ blk ∈ md.blocks, blk ≠ []

/-- Concrete metadata record with one remote peer hypervisor, used to
exercise the flush broadcast failure path. -/
def flushDemoMd : UKAIMetadata :=
  { name := "img"
    size := 100
    used_size := 100
    block_size := 100
    hypervisors := [("H2", UKAI_OUT_OF_SYNC)]
    blocks := [[("A", UKAI_IN_SYNC)]] }

/-- Concrete two-block record for the C10 witness. -/
def addLocDemoMd : UKAIMetadata :=
  { name := "img"
    size := 200
    used_size := 200
    block_size := 100
    hypervisors := [("H", UKAI_IN_SYNC)]
    blocks := [[("A", UKAI_IN_SYNC)], [("A", UKAI_IN_SYNC), ("B", UKAI_OUT_OF_SYNC)]] }

/-- Result of adding node B over the whole range of `addLocDemoMd`. -/
def addLocDemoMd2 : UKAIMetadata :=
  { name := "img"
    size := 200
    used_size := 200
    block_size := 100
    hypervisors := [("H", UKAI_IN_SYNC)]
    blocks := [[("A", UKAI_IN_SYNC), ("B", UKAI_OUT_OF_SYNC)],
               [("A", UKAI_IN_SYNC), ("B", UKAI_OUT_OF_SYNC)]] }

/-- Concrete record for the C5 witness: block 0 holds only node A in
sync, block 1 holds A and B both in sync. -/
def removeLocDemoMd : UKAIMetadata :=
  { name := "img"
    size := 200
    used_size := 200
    block_size := 100
    hypervisors := [("H", UKAI_IN_SYNC)]
    blocks := [[("A", UKAI_IN_SYNC)], [("A", UKAI_IN_SYNC), ("B", UKAI_IN_SYNC)]] }

/-- Result of removing node A over the whole range of `removeLocDemoMd`:
block 0 is skipped because A is its only in-sync member, block 1 drops A. -/
def removeLocDemoMd2 : UKAIMetadata :=
  { name := "img"
    size := 200
    used_size := 200
    block_size := 100
    hypervisors := [("H", UKAI_IN_SYNC)]
    blocks := [[("A", UKAI_IN_SYNC)], [("B", UKAI_IN_SYNC)]] }

/-- Replica-selection loop shared verbatim by the read path
(src/ukai_data.py lines 77-84) and the sync source selection
(src/ukai_data.py lines 182-189): entries are scanned in iteration
order, entries with `synced` False are skipped, the first local synced
node stops the scan, otherwise the last synced node scanned is kept.
The accumulator is the `candidate` variable, initially `None`. -/
def pickCandidate (isLocal : String → Bool) :
    List (String × Bool) → Option String → Option String
  | [], candidate => candidate
  | (node, synced) :: rest, candidate =>
    if synced = false then pickCandidate isLocal rest candidate
    else if isLocal node then some node
    else pickCandidate isLocal rest (some node)

/-- Core of `gather_pieces` (src/ukai_data.py lines 39-63): the piece
list `(block, start position, length)` covering the byte range.  A
single piece is emitted when the range stays in one block; otherwise
the loop over `range(start_block, end_block + 1)` emits a head piece, a
full block for every interior index, and a tail piece. -/
def gatherCore (block_size offset size : Nat) : List (Nat × Nat × Nat) :=
  let start_block := offset / block_size
  let end_block := (offset + size - 1) / block_size
  let start_block_pos := offset - start_block * block_size
  let end_block_pos := (offset + size) - end_block * block_size
  if start_block = end_block then
    [(start_block, start_block_pos, size)]
  else
    (List.range' start_block (end_block + 1 - start_block)).map (fun block =>
      if block = start_block then
        (block, start_block_pos, block_size - start_block_pos)
      else if block = end_block then (block, 0, end_block_pos)
      else (block, 0, block_size))

/-- `UKAIData.gather_pieces` (src/ukai_data.py lines 34-63) with its
asserts `size > 0` and `size + offset <= self.metadata.size`; the
assert `offset >= 0` is structural for `Nat`. -/
def UKAIData.gather_pieces (img_size block_size offset size : Nat) :
    Option (List (Nat × Nat × Nat)) :=
  if 0 < size ∧ offset + size ≤ img_size then
    some (gatherCore block_size offset size)
  else none

/-- Outcome of a read: the ordered trace of `get_data` calls the loop
issues, each `(candidate, block, offset in block, length)`, or the
failure named by the specification.  The `replicaUnavailable`
constructor exists to state the claim; the source has no such exit. -/
inductive ReadOutcome where
  | success (calls : List (Option String × Nat × Nat × Nat))
  | replicaUnavailable (blk : Nat)
deriving DecidableEq

/-- `UKAIData.read` (src/ukai_data.py lines 65-89): after the asserts,
decomposes the range into pieces and, for each piece, selects a replica
with `pickCandidate` over `self.metadata.blocks[blk_num]` and calls
`get_data(candidate, blk_num, off_in_blk, size_in_blk)`; the candidate
stays `None` when no replica of the block is synced and the call is
issued anyway.  Out-of-range block indices are modelled by an empty
replica map (the asserts keep every piece in range whenever
`len(blocks) * block_size = img_size`). -/
def UKAIData.read (isLocal : String → Bool) (img_size block_size : Nat)
    (blocks : List (List (String × Bool))) (size offset : Nat) :
    Option ReadOutcome :=
  if 0 < size ∧ offset + size ≤ img_size then
    some (ReadOutcome.success ((gatherCore block_size offset size).map
      (fun p => (pickCandidate isLocal (blocks.getD p.1 []) none, p.1, p.2.1, p.2.2))))
  else none

/-- Result of `synchronize_block` on one block: the replica map after
the call, whether the broken-disk diagnostic was printed (source
candidate `None`), the nodes for which `allocate_dataspace` was called,
and the `(target, source)` pairs of full-block copies performed. -/
structure SyncResult where
  block : List (String × Bool)
  diskBroken : Bool
  allocs : List String
  copies : List (String × Option String)
deriving DecidableEq

/-- Copy loop of `synchronize_block` (src/ukai_data.py lines 194-207):
every entry that is synced, or that is the source candidate, is left
alone; every other entry gets a dataspace allocation, a full-block copy
from the source candidate, and its synced flag set to True. -/
def syncEntries (src : Option String) :
    List (String × Bool) → List (String × Bool) × List String × List (String × Option String)
  | [] => ([], [], [])
  | (node, synced) :: rest =>
    if synced = true then
      ((node, synced) :: (syncEntries src rest).1, (syncEntries src rest).2)
    else if some node = src then
      ((node, synced) :: (syncEntries src rest).1, (syncEntries src rest).2)
    else
      ((node, true) :: (syncEntries src rest).1,
        node :: (syncEntries src rest).2.1, (node, src) :: (syncEntries src rest).2.2)

/-- `UKAIData.synchronize_block` (src/ukai_data.py lines 180-208):
selects the source candidate with the shared replica-selection loop;
when it is `None` the source only prints the broken-disk diagnostic
(the comment says an exception should be raised) and falls through to
the copy loop.  The trailing `self.metadata.flush()` does not touch the
replica map and is modelled separately. -/
def UKAIData.synchronize_block (isLocal : String → Bool)
    (block : List (String × Bool)) : SyncResult :=
  let src := pickCandidate isLocal block none
  let r := syncEntries src block
  ⟨r.1, src.isNone, r.2.1, r.2.2⟩

/-- Boolean tiling check: `chain a b segs` holds when the `(start,
length)` segments are contiguous, in order, starting at `a` and ending
exactly at `b` — that is, they cover `[a, b)` with no gaps and no
overlaps. -/
def chain : Nat → Nat → List (Nat × Nat) → Bool
  | a, b, [] => a == b
  | a, b, (s, l) :: rest => s == a && chain (a + l) b rest

/-- Absolute byte span of a piece `(block, start position, length)`. -/
def absSpan (block_size : Nat) (p : Nat × Nat × Nat) : Nat × Nat :=
  (block_size * p.1 + p.2.1, p.2.2)

/-- Claim C1: the claim states that `acquire_lock(start_idx, end_idx)`
acquires exactly the per-block locks with indices in
`[start_idx, end_idx]` and `release_lock` releases exactly those locks.
The source loops run over `range(0, end_idx + 1)` and ignore
`start_idx`: on a four-block image, `acquire_lock(2, 3)` acquires locks
0, 1, 2, 3 instead of exactly 2, 3, and `release_lock(2, 3)` likewise
releases 0, 1, 2, 3. -/
theorem UKAIMetadata.acquire_release_ignore_start_idx :
    lockDemoMd.acquire_lock_indices 2 3 = some [0, 1, 2, 3] ∧
    lockDemoMd.release_lock_indices 2 3 = some [0, 1, 2, 3] ∧
    ([0, 1, 2, 3] : List Nat) ≠ [2, 3] := by
  refine ⟨by decide, by decide, by decide⟩

/-- Claim C6 counterexample: the claim states that `create` fails with
`InvalidGeometry` whenever `size % block_size == 0` is violated; at
`size = 5`, `block_size = 2` the constraint is violated yet
`ukai_metadata_create` succeeds and returns a record (no validation
exists in the source). -/
theorem ukai_metadata_create_no_validation :
    5 % 2 ≠ 0 ∧ (ukai_metadata_create "img" 5 2 "loc" "hv").isSome = true := by
  refine ⟨by decide, by decide⟩

/-- Claim C6 (amended): `ukai_metadata_create` performs no geometry
validation; for every `block_size > 0` (including sizes violating
`size % block_size == 0` or `size > 0`) it succeeds and produces a
record whose blocks sequence has length `size / block_size`, where each
block has exactly one replica `location` with status `UKAI_IN_SYNC`, and
whose hypervisor map is exactly the creator with status `UKAI_IN_SYNC`. -/
theorem ukai_metadata_create_shape (image_name : String)
    (size block_size : Nat) (location hypervisor : String)
    (hbs : 0 < block_size) :
    ∃ md, ukai_metadata_create image_name size block_size location hypervisor
        = some md ∧
      md.blocks.length = size / block_size ∧
      (∀ blk ∈ md.blocks, blk = [(location, UKAI_IN_SYNC)]) ∧
      md.hypervisors = [(hypervisor, UKAI_IN_SYNC)] ∧
      lookupKey hypervisor md.hypervisors = some UKAI_IN_SYNC := by
  have hne : block_size ≠ 0 := Nat.pos_iff_ne_zero.mp hbs
  refine ⟨{ name := image_name, size := size, used_size := size,
            block_size := block_size,
            hypervisors := [(hypervisor, UKAI_IN_SYNC)],
            blocks := (List.range (size / block_size)).map
              (fun _ => [(location, UKAI_IN_SYNC)]) },
          ?_, ?_, ?_, rfl, ?_⟩
  · simp [ukai_metadata_create, hne]
  · simp
  · intro blk hblk
    simp only [List.mem_map] at hblk
    obtain ⟨_, _, h⟩ := hblk
    exact h.symm
  · simp [lookupKey, List.find?]

/-- Claim C6 witness: instantiation of the amended claim at a concrete
geometry (size 4, block size 2). -/
theorem ukai_metadata_create_shape_witness :
    ∃ md, ukai_metadata_create "img" 4 2 "loc" "hv" = some md ∧
      md.blocks.length = 4 / 2 ∧
      (∀ blk ∈ md.blocks, blk = [("loc", UKAI_IN_SYNC)]) ∧
      md.hypervisors = [("hv", UKAI_IN_SYNC)] ∧
      lookupKey "hv" md.hypervisors = some UKAI_IN_SYNC :=
  ukai_metadata_create_shape "img" 4 2 "loc" "hv" (by decide)

/-- Claim C2: the claim states that `flush` never raises, marks each
non-local peer `UKAI_IN_SYNC` before the `proxy_update_metadata` RPC,
and on RPC failure marks the peer `UKAI_OUT_OF_SYNC` and continues.
On a record with one remote peer `H2` whose RPC fails, `flush` instead
escapes with an exception (the except clause evaluates the undefined
name `xmlrpclib`, raising `NameError`) and leaves `H2` marked
`UKAI_IN_SYNC`, the status written just before the RPC attempt. -/
theorem UKAIMetadata.flush_rpc_failure_raises :
    (flushDemoMd.flush ["H2"] (fun _ => false) (fun _ => true)).2 = true ∧
    lookupKey "H2"
      (flushDemoMd.flush ["H2"] (fun _ => false) (fun _ => true)).1.hypervisors
      = some UKAI_IN_SYNC := by
  refine ⟨by decide, by decide⟩

/-- Length of `mapFromIdx` equals the length of the input list. -/
theorem mapFromIdx_length {α : Type} (f : Nat → α → α) (i : Nat) (l : List α) :
    (mapFromIdx f i l).length = l.length := by
  induction l generalizing i with
  | nil => rfl
  | cons a rest ih => simp [mapFromIdx, ih]

/-- Element access of `mapFromIdx`: position `j` holds `f (i + j)`
applied to the original element. -/
theorem mapFromIdx_getElem? {α : Type} (f : Nat → α → α) (i j : Nat)
    (l : List α) : (mapFromIdx f i l)[j]? = (l[j]?).map (f (i + j)) := by
  induction l generalizing i j with
  | nil => simp [mapFromIdx]
  | cons a rest ih =>
    cases j with
    | zero => simp [mapFromIdx]
    | succ j =>
      have harith : i + 1 + j = i + (j + 1) := by omega
      simp only [mapFromIdx, List.getElem?_cons_succ, ih (i + 1) j, harith]

/-- Idempotent per-index functions give an idempotent `mapFromIdx`. -/
theorem mapFromIdx_idem {α : Type} (f : Nat → α → α)
    (hf : ∀ i a, f i (f i a) = f i a) (i : Nat) (l : List α) :
    mapFromIdx f i (mapFromIdx f i l) = mapFromIdx f i l := by
  induction l generalizing i with
  | nil => rfl
  | cons a rest ih => simp [mapFromIdx, hf, ih]

/-- Membership of every element of `mapFromIdx` given that the function
preserves a predicate. -/
theorem mapFromIdx_forall {α : Type} {P : α → Prop} (f : Nat → α → α)
    (hf : ∀ j a, P a → P (f j a)) (i : Nat) (l : List α)
    (hl : ∀ a ∈ l, P a) : ∀ b ∈ mapFromIdx f i l, P b := by
  induction l generalizing i with
  | nil => intro b hb; cases hb
  | cons a rest ih =>
    intro b hb
    rcases List.mem_cons.mp hb with hb | hb
    · exact hb ▸ hf i a (hl a (List.mem_cons_self a rest))
    · exact ih (i + 1) (fun x hx => hl x (List.mem_cons_of_mem a hx)) b hb

/-- Appending a node entry makes `hasKey` true for that node. -/
theorem hasKey_append_self {α : Type} (node : String) (st : α)
    (blk : List (String × α)) : hasKey node (blk ++ [(node, st)]) = true := by
  simp [hasKey]

/-- Deleting a node key makes `hasKey` false for that node. -/
theorem hasKey_filter_ne (node : String) (blk : List (String × Nat)) :
    hasKey node (blk.filter (fun e => e.1 != node)) = false := by
  rw [hasKey, List.any_eq_false]
  intro e he
  have hne := (List.mem_filter.mp he).2
  simp only [bne_iff_ne, ne_eq] at hne
  simp [hne]

/-- On a block already containing the node, `addLocBlock` is the identity. -/
theorem addLocBlock_of_hasKey (node : String) (st : Nat) (r : Nat × Nat)
    (i : Nat) (blk : List (String × Nat)) (h : hasKey node blk = true) :
    addLocBlock node st r i blk = blk := by
  rw [addLocBlock, if_neg]
  intro hc
  exact hc.2.2 h

/-- The `add_location` loop body is idempotent on each block. -/
theorem addLocBlock_idem (node : String) (st : Nat) (r : Nat × Nat)
    (i : Nat) (blk : List (String × Nat)) :
    addLocBlock node st r i (addLocBlock node st r i blk)
      = addLocBlock node st r i blk := by
  by_cases hc : r.1 ≤ i ∧ i ≤ r.2 ∧ ¬ hasKey node blk
  · have h1 : addLocBlock node st r i blk = blk ++ [(node, st)] := by
      rw [addLocBlock, if_pos hc]
    rw [h1]
    exact addLocBlock_of_hasKey node st r i _ (hasKey_append_self node st blk)
  · have h1 : addLocBlock node st r i blk = blk := by
      rw [addLocBlock, if_neg hc]
    rw [h1, h1]

/-- Claim C10: for every block index in the range of
`add_location(node, start, end, status)`, if the node is already present
in that block before the call, the whole block (in particular the
existing entry and its sync status) is unchanged, and a second call of
`add_location` with the same arguments returns the metadata unchanged. -/
theorem UKAIMetadata.add_location_preserves_existing (md : UKAIMetadata)
    (node : String) (start_idx end_idx : Int) (st : Nat) (md2 : UKAIMetadata)
    (h : md.add_location node start_idx end_idx st = some md2) :
    (∀ (i : Nat) (blk : List (String × Nat)), md.blocks[i]? = some blk →
      hasKey node blk = true → md2.blocks[i]? = some blk) ∧
    md2.add_location node start_idx end_idx st = some md2 := by
  unfold UKAIMetadata.add_location at h
  by_cases hst : st = UKAI_IN_SYNC ∨ st = UKAI_SYNCING ∨ st = UKAI_OUT_OF_SYNC
  case neg => rw [if_neg hst] at h; cases h
  rw [if_pos hst] at h
  cases hr : md.resolveRange start_idx end_idx with
  | none => rw [hr] at h; cases h
  | some r =>
    rw [hr, Option.map_some'] at h
    injection h with h2
    subst h2
    constructor
    · intro i blk hblk hk
      show (mapFromIdx (addLocBlock node st r) 0 md.blocks)[i]? = some blk
      rw [mapFromIdx_getElem?, Nat.zero_add, hblk, Option.map_some',
        addLocBlock_of_hasKey node st r i blk hk]
    · unfold UKAIMetadata.add_location
      rw [if_pos hst]
      have hrr : ({ md with blocks := mapFromIdx (addLocBlock node st r) 0 md.blocks } :
          UKAIMetadata).resolveRange start_idx end_idx = some r := hr
      rw [hrr, Option.map_some']
      show some ({ md with blocks := mapFromIdx (addLocBlock node st r) 0 (mapFromIdx (addLocBlock node st r) 0 md.blocks) } : UKAIMetadata) = some ({ md with blocks := mapFromIdx (addLocBlock node st r) 0 md.blocks } : UKAIMetadata)
      rw [mapFromIdx_idem (addLocBlock node st r) (addLocBlock_idem node st r) 0 md.blocks]

/-- Claim C10 witness: the theorem applied to a concrete record in which
node B is present in block 1 with status `UKAI_OUT_OF_SYNC` and absent
from block 0. -/
theorem UKAIMetadata.add_location_preserves_existing_witness :
    (∀ (i : Nat) (blk : List (String × Nat)), addLocDemoMd.blocks[i]? = some blk →
      hasKey "B" blk = true → addLocDemoMd2.blocks[i]? = some blk) ∧
    addLocDemoMd2.add_location "B" 0 (-1) 2 = some addLocDemoMd2 :=
  UKAIMetadata.add_location_preserves_existing addLocDemoMd "B" 0 (-1) 2
    addLocDemoMd2 (by decide)

/-- Claim C5: for every block index in the range of
`remove_location(node, start, end)`: when no member other than `node`
has status `UKAI_IN_SYNC`, the block is left unchanged (so the node
remains present if it was) and the diagnostic flag of the loop body is
set; otherwise the entry for `node` is deleted from the block. -/
theorem UKAIMetadata.remove_location_last_sync_guard (md : UKAIMetadata)
    (node : String) (start_idx end_idx : Int) (r : Nat × Nat)
    (md2 : UKAIMetadata) (i : Nat) (blk : List (String × Nat))
    (hr : md.resolveRange start_idx end_idx = some r)
    (h : md.remove_location node start_idx end_idx = some md2)
    (hlo : r.1 ≤ i) (hhi : i ≤ r.2)
    (hblk : md.blocks[i]? = some blk) :
    (blk.any (fun e => e.1 != node && e.2 == UKAI_IN_SYNC) = false →
      md2.blocks[i]? = some blk ∧ (removeLocationBlock node blk).2 = true) ∧
    (blk.any (fun e => e.1 != node && e.2 == UKAI_IN_SYNC) = true →
      md2.blocks[i]? = some (blk.filter (fun e => e.1 != node)) ∧
      hasKey node (blk.filter (fun e => e.1 != node)) = false) := by
  unfold UKAIMetadata.remove_location at h
  rw [hr, Option.map_some'] at h
  injection h with h2
  subst h2
  have hget : (mapFromIdx (removeRangeBlock node r) 0 md.blocks)[i]?
      = some (removeRangeBlock node r i blk) := by
    rw [mapFromIdx_getElem?, Nat.zero_add, hblk, Option.map_some']
  have hin : removeRangeBlock node r i blk = (removeLocationBlock node blk).1 := by
    rw [removeRangeBlock, if_pos ⟨hlo, hhi⟩]
  constructor
  · intro hany
    have hrb : removeLocationBlock node blk = (blk, true) := by
      rw [removeLocationBlock, if_neg (by simp [hany])]
    constructor
    · show (mapFromIdx (removeRangeBlock node r) 0 md.blocks)[i]? = some blk
      rw [hget, hin, hrb]
    · rw [hrb]
  · intro hany
    have hrb : removeLocationBlock node blk
        = (blk.filter (fun e => e.1 != node), false) := by
      rw [removeLocationBlock, if_pos hany]
    constructor
    · show (mapFromIdx (removeRangeBlock node r) 0 md.blocks)[i]?
        = some (blk.filter (fun e => e.1 != node))
      rw [hget, hin, hrb]
    · exact hasKey_filter_ne node blk

/-- Claim C5 witness: the theorem applied to block 0 of a concrete
record where node A is the only in-sync replica of block 0. -/
theorem UKAIMetadata.remove_location_last_sync_guard_witness :
    (([("A", UKAI_IN_SYNC)] : List (String × Nat)).any
        (fun e => e.1 != "A" && e.2 == UKAI_IN_SYNC) = false →
      removeLocDemoMd2.blocks[0]? = some [("A", UKAI_IN_SYNC)] ∧
      (removeLocationBlock "A" [("A", UKAI_IN_SYNC)]).2 = true) ∧
    (([("A", UKAI_IN_SYNC)] : List (String × Nat)).any
        (fun e => e.1 != "A" && e.2 == UKAI_IN_SYNC) = true →
      removeLocDemoMd2.blocks[0]?
        = some ([("A", UKAI_IN_SYNC)].filter (fun e => e.1 != "A")) ∧
      hasKey "A" ([("A", UKAI_IN_SYNC)].filter (fun e => e.1 != "A")) = false) :=
  UKAIMetadata.remove_location_last_sync_guard removeLocDemoMd "A" 0 (-1) (0, 1)
    removeLocDemoMd2 0 [("A", UKAI_IN_SYNC)] (by decide) (by decide)
    (by decide) (by decide) (by decide)

/-- The `add_location` loop body never empties a block. -/
theorem addLocBlock_ne_nil (node : String) (st : Nat) (r : Nat × Nat)
    (i : Nat) (blk : List (String × Nat)) (h : blk ≠ []) :
    addLocBlock node st r i blk ≠ [] := by
  rw [addLocBlock]
  by_cases hc : r.1 ≤ i ∧ i ≤ r.2 ∧ ¬ hasKey node blk
  · rw [if_pos hc]
    simp
  · rw [if_neg hc]
    exact h

/-- The `remove_location` loop body never empties a block: either the
block is returned untouched, or another in-sync member survives the
deletion. -/
theorem removeLocationBlock_ne_nil (node : String) (blk : List (String × Nat))
    (h : blk ≠ []) : (removeLocationBlock node blk).1 ≠ [] := by
  rw [removeLocationBlock]
  by_cases hany : blk.any (fun e => e.1 != node && e.2 == UKAI_IN_SYNC) = true
  · rw [if_pos hany]
    obtain ⟨e, he, hpe⟩ := List.any_eq_true.mp hany
    rw [Bool.and_eq_true] at hpe
    have hmem : e ∈ blk.filter (fun e => e.1 != node) :=
      List.mem_filter.mpr ⟨he, hpe.1⟩
    exact List.ne_nil_of_mem hmem
  · rw [if_neg hany]
    exact h

/-- The ranged `remove_location` loop body never empties a block. -/
theorem removeRangeBlock_ne_nil (node : String) (r : Nat × Nat)
    (i : Nat) (blk : List (String × Nat)) (h : blk ≠ []) :
    removeRangeBlock node r i blk ≠ [] := by
  rw [removeRangeBlock]
  by_cases hc : r.1 ≤ i ∧ i ≤ r.2
  · rw [if_pos hc]
    exact removeLocationBlock_ne_nil node blk h
  · rw [if_neg hc]
    exact h

/-- The flush broadcast loop never touches the blocks array, the size,
or the block size of the record. -/
theorem flushLoop_preserves (isLocal rpcFails : String → Bool)
    (md : UKAIMetadata) (rs : List String) :
    (flushLoop isLocal rpcFails md rs).1.blocks = md.blocks ∧
    (flushLoop isLocal rpcFails md rs).1.size = md.size ∧
    (flushLoop isLocal rpcFails md rs).1.block_size = md.block_size := by
  induction rs generalizing md with
  | nil => exact ⟨rfl, rfl, rfl⟩
  | cons hv rest ih =>
    rw [flushLoop]
    by_cases h1 : isLocal hv = true
    · rw [if_pos h1]
      exact ih md
    · rw [if_neg h1]
      by_cases h2 : hasKey hv md.hypervisors = true
      · rw [if_pos h2]
        by_cases h3 : rpcFails hv = true
        · rw [if_pos h3]
          exact ⟨rfl, rfl, rfl⟩
        · rw [if_neg h3]
          exact ih _
      · rw [if_neg h2]
        exact ⟨rfl, rfl, rfl⟩

/-- Claim C9: every metadata mutator preserves the structural
invariants: the blocks sequence keeps length `size / block_size` and
every block keeps a non-empty replica map.  The six operations are
`add_location`, `remove_location`, `add_hypervisor`,
`remove_hypervisor`, `set_sync_status` and `flush`. -/
theorem UKAIMetadata.mutators_preserve_invariants (md : UKAIMetadata)
    (h : goodGeometry md) :
    (∀ (node : String) (start_idx end_idx : Int) (st : Nat)
      (md2 : UKAIMetadata),
      md.add_location node start_idx end_idx st = some md2 →
        goodGeometry md2) ∧
    (∀ (node : String) (start_idx end_idx : Int) (md2 : UKAIMetadata),
      md.remove_location node start_idx end_idx = some md2 →
        goodGeometry md2) ∧
    (∀ hv : String, goodGeometry (md.add_hypervisor hv)) ∧
    (∀ hv : String, goodGeometry (md.remove_hypervisor hv)) ∧
    (∀ (i : Nat) (node : String) (st : Nat) (md2 : UKAIMetadata),
      md.set_sync_status i node st = some md2 → goodGeometry md2) ∧
    (∀ (readers : List String) (isLocal rpcFails : String → Bool),
      goodGeometry (md.flush readers isLocal rpcFails).1) := by
  obtain ⟨hlen, hne⟩ := h
  refine ⟨?_, ?_, ?_, ?_, ?_, ?_⟩
  · intro node start_idx end_idx st md2 hop
    unfold UKAIMetadata.add_location at hop
    by_cases hst : st = UKAI_IN_SYNC ∨ st = UKAI_SYNCING ∨ st = UKAI_OUT_OF_SYNC
    case neg => rw [if_neg hst] at hop; cases hop
    rw [if_pos hst] at hop
    cases hr : md.resolveRange start_idx end_idx with
    | none => rw [hr] at hop; cases hop
    | some r =>
      rw [hr, Option.map_some'] at hop
      injection hop with h2
      subst h2
      refine ⟨?_, ?_⟩
      · show (mapFromIdx (addLocBlock node st r) 0 md.blocks).length = _
        rw [mapFromIdx_length]
        exact hlen
      · exact mapFromIdx_forall (addLocBlock node st r)
          (fun j a ha => addLocBlock_ne_nil node st r j a ha) 0 md.blocks hne
  · intro node start_idx end_idx md2 hop
    unfold UKAIMetadata.remove_location at hop
    cases hr : md.resolveRange start_idx end_idx with
    | none => rw [hr] at hop; cases hop
    | some r =>
      rw [hr, Option.map_some'] at hop
      injection hop with h2
      subst h2
      refine ⟨?_, ?_⟩
      · show (mapFromIdx (removeRangeBlock node r) 0 md.blocks).length = _
        rw [mapFromIdx_length]
        exact hlen
      · exact mapFromIdx_forall (removeRangeBlock node r)
          (fun j a ha => removeRangeBlock_ne_nil node r j a ha) 0 md.blocks hne
  · intro hv
    unfold UKAIMetadata.add_hypervisor
    by_cases hc : hasKey hv md.hypervisors = true
    · rw [if_pos hc]
      exact ⟨hlen, hne⟩
    · rw [if_neg hc]
      exact ⟨hlen, hne⟩
  · intro hv
    unfold UKAIMetadata.remove_hypervisor
    by_cases hc : hasKey hv md.hypervisors = true
    · rw [if_pos hc]
      exact ⟨hlen, hne⟩
    · rw [if_neg hc]
      exact ⟨hlen, hne⟩
  · intro i node st md2 hop
    unfold UKAIMetadata.set_sync_status at hop
    by_cases hst : st = UKAI_IN_SYNC ∨ st = UKAI_SYNCING ∨ st = UKAI_OUT_OF_SYNC
    case neg => rw [if_neg hst] at hop; cases hop
    rw [if_pos hst] at hop
    by_cases hc : i < md.blocks.length ∧ hasKey node (md.blocks.getD i [])
    case neg => rw [if_neg hc] at hop; cases hop
    rw [if_pos hc] at hop
    injection hop with h2
    subst h2
    refine ⟨?_, ?_⟩
    · show (md.blocks.set i _).length = _
      rw [List.length_set]
      exact hlen
    · intro blk2 hmem
      rcases List.mem_or_eq_of_mem_set hmem with hmem2 | rfl
      · exact hne blk2 hmem2
      · have hblkmem : md.blocks.getD i [] ∈ md.blocks := by
          rw [List.getD_eq_getElem md.blocks [] hc.1]
          exact List.getElem_mem hc.1
        have hblkne := hne _ hblkmem
        simp only [setBlockStatus, ne_eq, List.map_eq_nil_iff]
        exact hblkne
  · intro readers isLocal rpcFails
    have hp := flushLoop_preserves isLocal rpcFails md readers
    unfold UKAIMetadata.flush goodGeometry
    rw [hp.1, hp.2.1, hp.2.2]
    exact ⟨hlen, hne⟩

/-- Claim C9 witness: the theorem applied to a concrete one-block record
satisfying the invariants. -/
theorem UKAIMetadata.mutators_preserve_invariants_witness :
    goodGeometry flushDemoMd ∧
    (∀ (node : String) (start_idx end_idx : Int) (st : Nat)
      (md2 : UKAIMetadata),
      flushDemoMd.add_location node start_idx end_idx st = some md2 →
        goodGeometry md2) :=
  ⟨⟨by decide, by decide⟩,
    (UKAIMetadata.mutators_preserve_invariants flushDemoMd
      ⟨by decide, by decide⟩).1⟩

/-- Claim C7: the claim states that `synchronize_block` with no synced
source replica reports the broken disk and aborts without allocating,
copying, or marking any replica.  On a block whose only replica A is
unsynced, the source prints the diagnostic but continues: it allocates
dataspace for A, issues a copy from source `None`, and marks A synced. -/
theorem UKAIData.synchronize_block_no_source_proceeds :
    UKAIData.synchronize_block (fun _ => false) [("A", false)]
      = ⟨[("A", true)], true, ["A"], [("A", none)]⟩ := by
  decide

/-- Claim C4 counterexample: the claim states that a read touching a
block with no synced replica fails with `ReplicaUnavailable` rather
than attempting I/O.  On a one-block image whose only replica is
unsynced, `read` returns normally and issues the `get_data` call with
candidate `None` (attempting I/O) instead of failing. -/
theorem UKAIData.read_no_replica_counterexample :
    (∀ e ∈ [("A", false)], e.2 = false) ∧
    UKAIData.read (fun _ => false) 100 100 [[("A", false)]] 10 0
      = some (ReadOutcome.success [(none, 0, 0, 10)]) := by
  refine ⟨by decide, by decide⟩

/-- Entries that are all unsynced leave the selection accumulator
untouched. -/
theorem pickCandidate_all_false (isLocal : String → Bool)
    (blk : List (String × Bool)) (acc : Option String)
    (h : ∀ e ∈ blk, e.2 = false) :
    pickCandidate isLocal blk acc = acc := by
  induction blk generalizing acc with
  | nil => rfl
  | cons e rest ih =>
    obtain ⟨node, synced⟩ := e
    have hs : synced = false := h (node, synced) (List.mem_cons_self _ _)
    rw [pickCandidate, if_pos hs]
    exact ih acc (fun x hx => h x (List.mem_cons_of_mem _ hx))

/-- Claim C4 (amended): `read` never fails with `ReplicaUnavailable`
(no such exit exists in the source); whenever it returns, the outcome
is a trace of `get_data` calls, and the call for any piece whose block
has no synced replica carries candidate `None` — the I/O dispatch is
attempted with a null node instead of failing. -/
theorem UKAIData.read_no_candidate_none (isLocal : String → Bool)
    (img_size block_size : Nat) (blocks : List (List (String × Bool)))
    (size offset : Nat) (out : ReadOutcome)
    (h : UKAIData.read isLocal img_size block_size blocks size offset = some out) :
    ∃ calls, out = ReadOutcome.success calls ∧
      ∀ c ∈ calls, (∀ e ∈ blocks.getD c.2.1 [], e.2 = false) → c.1 = none := by
  unfold UKAIData.read at h
  by_cases hg : 0 < size ∧ offset + size ≤ img_size
  case neg => rw [if_neg hg] at h; cases h
  rw [if_pos hg] at h
  injection h with h2
  subst h2
  refine ⟨_, rfl, ?_⟩
  intro c hc hall
  simp only [List.mem_map] at hc
  obtain ⟨p, _, rfl⟩ := hc
  exact pickCandidate_all_false isLocal _ none hall

/-- Claim C4 witness: the amended theorem applied to a one-block image
whose single replica is unsynced. -/
theorem UKAIData.read_no_candidate_none_witness :
    ∃ calls, ReadOutcome.success [(none, 0, 0, 10)] = ReadOutcome.success calls ∧
      ∀ c ∈ calls,
        (∀ e ∈ ([[("A", false)]] : List (List (String × Bool))).getD c.2.1 [],
          e.2 = false) → c.1 = none :=
  UKAIData.read_no_candidate_none (fun _ => false) 100 100 [[("A", false)]]
    10 0 (ReadOutcome.success [(none, 0, 0, 10)]) (by decide)

/-- A selection result that differs from the accumulator names a synced
entry of the scanned list. -/
theorem pickCandidate_mem (isLocal : String → Bool)
    (blk : List (String × Bool)) (acc : Option String) (s : String)
    (h : pickCandidate isLocal blk acc = some s) :
    (s, true) ∈ blk ∨ acc = some s := by
  induction blk generalizing acc with
  | nil => exact Or.inr h
  | cons e rest ih =>
    obtain ⟨node, synced⟩ := e
    rw [pickCandidate] at h
    by_cases hs : synced = false
    · rw [if_pos hs] at h
      rcases ih acc h with h2 | h2
      · exact Or.inl (List.mem_cons_of_mem _ h2)
      · exact Or.inr h2
    · rw [if_neg hs] at h
      have hst : synced = true := by cases synced <;> simp_all
      subst hst
      by_cases hl : isLocal node = true
      · rw [if_pos hl] at h
        injection h with h2
        subst h2
        exact Or.inl (List.mem_cons_self _ _)
      · rw [if_neg hl] at h
        rcases ih (some node) h with h2 | h2
        · exact Or.inl (List.mem_cons_of_mem _ h2)
        · injection h2 with h3
          subst h3
          exact Or.inl (List.mem_cons_self _ _)

/-- On an association list with pairwise distinct keys, two entries with
the same key carry the same value. -/
theorem nodupKeys_eq_of_mem {α : Type} (l : List (String × α))
    (hnd : (l.map Prod.fst).Nodup) (k : String) (x y : α)
    (hx : (k, x) ∈ l) (hy : (k, y) ∈ l) : x = y := by
  induction l with
  | nil => cases hx
  | cons e rest ih =>
    rw [List.map_cons, List.nodup_cons] at hnd
    rcases List.mem_cons.mp hx with hx1 | hx2
    · rcases List.mem_cons.mp hy with hy1 | hy2
      · have h3 : (k, x) = (k, y) := hx1.trans hy1.symm
        exact ((Prod.mk.injEq _ _ _ _).mp h3).2
      · exfalso
        apply hnd.1
        rw [← hx1]
        exact List.mem_map.mpr ⟨(k, y), hy2, rfl⟩
    · rcases List.mem_cons.mp hy with hy1 | hy2
      · exfalso
        apply hnd.1
        rw [← hy1]
        exact List.mem_map.mpr ⟨(k, x), hx2, rfl⟩
      · exact ih hnd.2 hx2 hy2

/-- After the copy loop, every replica entry is synced, provided no
unsynced entry carries the source candidate name. -/
theorem syncEntries_all_true (src : Option String)
    (blk : List (String × Bool))
    (h : ∀ node : String, (node, false) ∈ blk → some node ≠ src) :
    ∀ e ∈ (syncEntries src blk).1, e.2 = true := by
  induction blk with
  | nil => intro e he; cases he
  | cons a rest ih =>
    obtain ⟨node, synced⟩ := a
    intro e he
    rw [syncEntries] at he
    by_cases hs : synced = true
    · rw [if_pos hs] at he
      rcases List.mem_cons.mp he with he1 | he2
      · rw [he1]; exact hs
      · exact ih (fun n hn => h n (List.mem_cons_of_mem _ hn)) e he2
    · rw [if_neg hs] at he
      have hs2 : synced = false := by cases synced <;> simp_all
      subst hs2
      rw [if_neg (h node (List.mem_cons_self _ _))] at he
      rcases List.mem_cons.mp he with he1 | he2
      · rw [he1]
      · exact ih (fun n hn => h n (List.mem_cons_of_mem _ hn)) e he2

/-- On a fully synced replica map the copy loop is the identity and
performs no allocation and no copy. -/
theorem syncEntries_id_of_all_true (src : Option String)
    (blk : List (String × Bool)) (h : ∀ e ∈ blk, e.2 = true) :
    syncEntries src blk = (blk, [], []) := by
  induction blk with
  | nil => rfl
  | cons a rest ih =>
    obtain ⟨node, synced⟩ := a
    have hs : synced = true := h (node, synced) (List.mem_cons_self _ _)
    rw [syncEntries, if_pos hs, ih (fun e he => h e (List.mem_cons_of_mem _ he))]

/-- Claim C8: on a block whose keys are distinct (a Python dict) and
which has a synced source replica, `synchronize_block` is idempotent:
the second run leaves the replica map unchanged and performs no
allocation and no copy; and on a block whose replicas are all already
synced, a single run mutates nothing (only the flush remains). -/
theorem UKAIData.synchronize_block_idempotent (isLocal : String → Bool)
    (b : List (String × Bool)) (hnd : (b.map Prod.fst).Nodup)
    (hs : ∃ e ∈ b, e.2 = true) :
    (UKAIData.synchronize_block isLocal
        (UKAIData.synchronize_block isLocal b).block).block
      = (UKAIData.synchronize_block isLocal b).block ∧
    (UKAIData.synchronize_block isLocal
        (UKAIData.synchronize_block isLocal b).block).allocs = [] ∧
    (UKAIData.synchronize_block isLocal
        (UKAIData.synchronize_block isLocal b).block).copies = [] ∧
    ((∀ e ∈ b, e.2 = true) →
      (UKAIData.synchronize_block isLocal b).block = b ∧
      (UKAIData.synchronize_block isLocal b).allocs = [] ∧
      (UKAIData.synchronize_block isLocal b).copies = []) := by
  have hall : ∀ e ∈ (syncEntries (pickCandidate isLocal b none) b).1, e.2 = true := by
    apply syncEntries_all_true
    intro node hmem hsrc
    rcases pickCandidate_mem isLocal b none node hsrc.symm with h2 | h2
    · exact Bool.false_ne_true (nodupKeys_eq_of_mem b hnd node false true hmem h2)
    · cases h2
  have hid := syncEntries_id_of_all_true
    (pickCandidate isLocal (syncEntries (pickCandidate isLocal b none) b).1 none)
    (syncEntries (pickCandidate isLocal b none) b).1 hall
  refine ⟨?_, ?_, ?_, ?_⟩
  · show (syncEntries (pickCandidate isLocal (syncEntries (pickCandidate isLocal b none) b).1 none) (syncEntries (pickCandidate isLocal b none) b).1).1 = (syncEntries (pickCandidate isLocal b none) b).1
    rw [hid]
  · show (syncEntries (pickCandidate isLocal (syncEntries (pickCandidate isLocal b none) b).1 none) (syncEntries (pickCandidate isLocal b none) b).1).2.1 = []
    rw [hid]
  · show (syncEntries (pickCandidate isLocal (syncEntries (pickCandidate isLocal b none) b).1 none) (syncEntries (pickCandidate isLocal b none) b).1).2.2 = []
    rw [hid]
  · intro hall2
    have hid2 := syncEntries_id_of_all_true (pickCandidate isLocal b none) b hall2
    refine ⟨?_, ?_, ?_⟩
    · show (syncEntries (pickCandidate isLocal b none) b).1 = b
      rw [hid2]
    · show (syncEntries (pickCandidate isLocal b none) b).2.1 = []
      rw [hid2]
    · show (syncEntries (pickCandidate isLocal b none) b).2.2 = []
      rw [hid2]

/-- Claim C8 witness: the theorem applied to a two-replica block with a
synced source A and an unsynced target B. -/
theorem UKAIData.synchronize_block_idempotent_witness :
    (UKAIData.synchronize_block (fun _ => false)
        (UKAIData.synchronize_block (fun _ => false)
          [("A", true), ("B", false)]).block).block
      = (UKAIData.synchronize_block (fun _ => false)
          [("A", true), ("B", false)]).block ∧
    (UKAIData.synchronize_block (fun _ => false)
        (UKAIData.synchronize_block (fun _ => false)
          [("A", true), ("B", false)]).block).allocs = [] ∧
    (UKAIData.synchronize_block (fun _ => false)
        (UKAIData.synchronize_block (fun _ => false)
          [("A", true), ("B", false)]).block).copies = [] ∧
    ((∀ e ∈ [("A", true), ("B", false)], e.2 = true) →
      (UKAIData.synchronize_block (fun _ => false)
          [("A", true), ("B", false)]).block = [("A", true), ("B", false)] ∧
      (UKAIData.synchronize_block (fun _ => false)
          [("A", true), ("B", false)]).allocs = [] ∧
      (UKAIData.synchronize_block (fun _ => false)
          [("A", true), ("B", false)]).copies = []) :=
  UKAIData.synchronize_block_idempotent (fun _ => false)
    [("A", true), ("B", false)] (by decide) (by decide)

/-- Two tilings joined at a common boundary tile the union. -/
theorem chain_append (a m b : Nat) (l1 l2 : List (Nat × Nat))
    (h1 : chain a m l1 = true) (h2 : chain m b l2 = true) :
    chain a b (l1 ++ l2) = true := by
  induction l1 generalizing a with
  | nil =>
    rw [chain] at h1
    have ham : a = m := eq_of_beq h1
    subst ham
    simpa using h2
  | cons s rest ih =>
    obtain ⟨st, ln⟩ := s
    rw [chain, Bool.and_eq_true] at h1
    rw [List.cons_append, chain, Bool.and_eq_true]
    exact ⟨h1.1, ih (a + ln) h1.2⟩

/-- A tiling of `[a, b)` has segment lengths summing to `b - a`. -/
theorem chain_sum (a b : Nat) (l : List (Nat × Nat))
    (h : chain a b l = true) : a + (l.map Prod.snd).sum = b := by
  induction l generalizing a with
  | nil =>
    rw [chain] at h
    have : a = b := eq_of_beq h
    simpa using this
  | cons s rest ih =>
    obtain ⟨st, ln⟩ := s
    rw [chain, Bool.and_eq_true] at h
    have := ih (a + ln) h.2
    simp only [List.map_cons, List.sum_cons]
    omega

/-- Consecutive full blocks tile their span. -/
theorem chain_full_blocks (bs s n : Nat) :
    chain (bs * s) (bs * (s + n))
      ((List.range' s n).map (fun b => (bs * b, bs))) = true := by
  induction n generalizing s with
  | zero => simp [chain]
  | succ n ih =>
    rw [List.range'_succ]
    simp only [List.map_cons]
    rw [chain, Bool.and_eq_true]
    refine ⟨by simp, ?_⟩
    have harith : bs * s + bs = bs * (s + 1) := by ring
    have harith2 : bs * (s + (n + 1)) = bs * ((s + 1) + n) := by ring
    rw [harith, harith2]
    exact ih (s + 1)

/-- Characterization of the single-block branch of `gatherCore`. -/
theorem gatherCore_single (bs offset size : Nat)
    (h : offset / bs = (offset + size - 1) / bs) :
    gatherCore bs offset size
      = [(offset / bs, offset - (offset / bs) * bs, size)] := by
  simp only [gatherCore]
  rw [if_pos h]

/-- Characterization of the multi-block branch of `gatherCore`. -/
theorem gatherCore_multi (bs offset size : Nat)
    (h : ¬ offset / bs = (offset + size - 1) / bs) :
    gatherCore bs offset size
      = (List.range' (offset / bs)
          ((offset + size - 1) / bs + 1 - offset / bs)).map
        (fun block =>
          if block = offset / bs then
            (block, offset - (offset / bs) * bs,
              bs - (offset - (offset / bs) * bs))
          else if block = (offset + size - 1) / bs then
            (block, 0, (offset + size) - ((offset + size - 1) / bs) * bs)
          else (block, 0, bs)) := by
  simp only [gatherCore]
  rw [if_neg h]

/-- Claim C3: under the asserts of `gather_pieces` (positive size, range
inside the image) and a positive block size, the returned pieces tile
`[offset, offset + size)` in ascending order with no gaps or overlaps
(`chain` over the absolute spans), their lengths sum to `size`, the
first piece starts at `offset mod block_size` inside block
`offset / block_size`, every piece in neither the first nor the last
block is a full block `(b, 0, block_size)`, and a range inside a single
block yields exactly one piece. -/
theorem UKAIData.gather_pieces_spec (img_size block_size offset size : Nat)
    (hbs : 0 < block_size) (hsz : 0 < size)
    (hfit : offset + size ≤ img_size) :
    ∃ ps, UKAIData.gather_pieces img_size block_size offset size = some ps ∧
      chain offset (offset + size) (ps.map (absSpan block_size)) = true ∧
      (ps.map (fun p => p.2.2)).sum = size ∧
      (∃ l, ps.head? = some (offset / block_size, offset % block_size, l)) ∧
      (∀ p ∈ ps, p.1 ≠ offset / block_size →
        p.1 ≠ (offset + size - 1) / block_size → p = (p.1, 0, block_size)) ∧
      (offset / block_size = (offset + size - 1) / block_size →
        ps = [(offset / block_size, offset % block_size, size)]) := by
  have hdm : block_size * (offset / block_size) + offset % block_size = offset :=
    Nat.div_add_mod offset block_size
  have hmc : offset / block_size * block_size
      = block_size * (offset / block_size) := Nat.mul_comm _ _
  have hmodlt : offset % block_size < block_size := Nat.mod_lt offset hbs
  have hsble : offset / block_size * block_size ≤ offset :=
    Nat.div_mul_le_self offset block_size
  have hspos : offset - offset / block_size * block_size
      = offset % block_size := by omega
  refine ⟨gatherCore block_size offset size, ?_, ?_⟩
  · unfold UKAIData.gather_pieces
    rw [if_pos ⟨hsz, hfit⟩]
  by_cases hcase : offset / block_size = (offset + size - 1) / block_size
  · -- single-block branch
    have hps := gatherCore_single block_size offset size hcase
    have e1 : block_size * (offset / block_size)
        + (offset - offset / block_size * block_size) = offset := by omega
    refine ⟨?_, ?_, ?_, ?_, ?_⟩
    · rw [hps]
      simp only [List.map_cons, List.map_nil, absSpan]
      rw [chain, chain, Bool.and_eq_true]
      constructor
      · simp [e1]
      · simp
    · rw [hps]
      simp
    · rw [hps]
      exact ⟨size, by rw [List.head?_cons, hspos]⟩
    · intro p hp h1 _
      rw [hps] at hp
      rcases List.mem_cons.mp hp with rfl | hp2
      · exact absurd rfl h1
      · cases hp2
    · intro _
      rw [hps, hspos]
  · -- multi-block branch
    have hsbeb : offset / block_size ≤ (offset + size - 1) / block_size :=
      Nat.div_le_div_right (by omega)
    have hsblt : offset / block_size < (offset + size - 1) / block_size :=
      lt_of_le_of_ne hsbeb hcase
    obtain ⟨m, hm⟩ : ∃ m, (offset + size - 1) / block_size
        = offset / block_size + 1 + m :=
      ⟨(offset + size - 1) / block_size - offset / block_size - 1, by omega⟩
    have hmc2 : (offset + size - 1) / block_size * block_size
        = block_size * ((offset + size - 1) / block_size) := Nat.mul_comm _ _
    have heble : (offset + size - 1) / block_size * block_size
        ≤ offset + size - 1 := Nat.div_mul_le_self _ _
    have hms : block_size * (offset / block_size + 1)
        = block_size * (offset / block_size) + block_size := by ring
    have hcount : (offset + size - 1) / block_size + 1 - offset / block_size
        = m + 2 := by omega
    have hps : gatherCore block_size offset size
        = (offset / block_size, offset - offset / block_size * block_size,
            block_size - (offset - offset / block_size * block_size))
          :: ((List.range' (offset / block_size + 1) m).map
              (fun b => (b, 0, block_size))
            ++ [((offset + size - 1) / block_size, 0,
              (offset + size) - (offset + size - 1) / block_size * block_size)]) := by
      rw [gatherCore_multi block_size offset size hcase, hcount]
      rw [List.range'_succ, List.range'_concat]
      simp only [Nat.one_mul]
      rw [List.map_cons, List.map_append, List.map_cons, List.map_nil]
      congr 1
      · rw [if_pos rfl]
      congr 1
      · apply List.map_congr_left
        intro b hb
        rw [List.mem_range'_1] at hb
        rw [if_neg (by omega), if_neg (by omega)]
      · have heq : offset / block_size + 1 + m
            = (offset + size - 1) / block_size := by omega
        rw [heq, if_neg (by omega), if_pos rfl]
    have hmid : ((List.range' (offset / block_size + 1) m).map
          (fun b => (b, 0, block_size))).map (absSpan block_size)
        = (List.range' (offset / block_size + 1) m).map
          (fun b => (block_size * b, block_size)) := by
      rw [List.map_map]
      apply List.map_congr_left
      intro b hb
      simp [absSpan]
    have habs : (gatherCore block_size offset size).map (absSpan block_size)
        = (block_size * (offset / block_size)
            + (offset - offset / block_size * block_size),
            block_size - (offset - offset / block_size * block_size))
          :: ((List.range' (offset / block_size + 1) m).map
              (fun b => (block_size * b, block_size))
            ++ [(block_size * ((offset + size - 1) / block_size) + 0,
              (offset + size) - (offset + size - 1) / block_size * block_size)]) := by
      rw [hps, List.map_cons, List.map_append, hmid, List.map_cons, List.map_nil]
      simp only [absSpan]
    have c1 : chain offset (block_size * (offset / block_size + 1))
        [(block_size * (offset / block_size)
            + (offset - offset / block_size * block_size),
          block_size - (offset - offset / block_size * block_size))] := by
      have e1 : block_size * (offset / block_size)
          + (offset - offset / block_size * block_size) = offset := by omega
      have e2 : offset + (block_size
          - (offset - offset / block_size * block_size))
          = block_size * (offset / block_size + 1) := by omega
      rw [chain, chain, Bool.and_eq_true]
      exact ⟨by simp [e1], by simp [e2]⟩
    have c2 : chain (block_size * (offset / block_size + 1))
        (block_size * ((offset + size - 1) / block_size))
        ((List.range' (offset / block_size + 1) m).map
          (fun b => (block_size * b, block_size))) = true := by
      have hc2 := chain_full_blocks block_size (offset / block_size + 1) m
      have heq : offset / block_size + 1 + m
          = (offset + size - 1) / block_size := by omega
      rw [heq] at hc2
      exact hc2
    have c3 : chain (block_size * ((offset + size - 1) / block_size))
        (offset + size)
        [(block_size * ((offset + size - 1) / block_size) + 0,
          (offset + size) - (offset + size - 1) / block_size * block_size)] := by
      have e4 : block_size * ((offset + size - 1) / block_size)
          + ((offset + size) - (offset + size - 1) / block_size * block_size)
          = offset + size := by omega
      rw [chain, chain, Bool.and_eq_true]
      exact ⟨by simp, by simp [e4]⟩
    have hchain : chain offset (offset + size)
        ((gatherCore block_size offset size).map (absSpan block_size)) = true := by
      rw [habs]
      exact chain_append offset (block_size * (offset / block_size + 1))
        (offset + size) _ _ c1
        (chain_append _ (block_size * ((offset + size - 1) / block_size))
          _ _ _ c2 c3)
    refine ⟨hchain, ?_, ?_, ?_, ?_⟩
    · -- lengths sum to size
      have hsum := chain_sum offset (offset + size) _ hchain
      have hmaps : ((gatherCore block_size offset size).map
            (absSpan block_size)).map Prod.snd
          = (gatherCore block_size offset size).map (fun p => p.2.2) := by
        rw [List.map_map]
        apply List.map_congr_left
        intro p _
        rfl
      rw [hmaps] at hsum
      omega
    · -- first piece
      rw [hps]
      exact ⟨block_size - (offset - offset / block_size * block_size),
        by rw [List.head?_cons, hspos]⟩
    · -- interior pieces are full blocks
      intro p hp h1 h2
      rw [hps] at hp
      rcases List.mem_cons.mp hp with rfl | hp2
      · exact absurd rfl h1
      rcases List.mem_append.mp hp2 with hp3 | hp3
      · obtain ⟨b, _, rfl⟩ := List.mem_map.mp hp3
        rfl
      · rcases List.mem_cons.mp hp3 with rfl | hp4
        · exact absurd rfl h2
        · cases hp4
    · intro heq
      exact absurd heq hcase

/-- Claim C3 witness: the theorem applied at `block_size = 100`,
`offset = 90`, `size = 210` on a 1000-byte image (the specification
scenario producing pieces (0,90,10), (1,0,100), (2,0,100)). -/
theorem UKAIData.gather_pieces_spec_witness :
    ∃ ps, UKAIData.gather_pieces 1000 100 90 210 = some ps ∧
      chain 90 (90 + 210) (ps.map (absSpan 100)) = true ∧
      (ps.map (fun p => p.2.2)).sum = 210 ∧
      (∃ l, ps.head? = some (90 / 100, 90 % 100, l)) ∧
      (∀ p ∈ ps, p.1 ≠ 90 / 100 → p.1 ≠ (90 + 210 - 1) / 100 →
        p = (p.1, 0, 100)) ∧
      (90 / 100 = (90 + 210 - 1) / 100 →
        ps = [(90 / 100, 90 % 100, 210)]) :=
  UKAIData.gather_pieces_spec 1000 100 90 210 (by decide) (by decide) (by decide)
